import Mathlib

/-!
# cert-manager name.com webhook: DNS-01 record management

A shallow embedding of `src/name/name.go` (the provider record manager) and of
`src/main.go` (the challenge solver), followed by theorems about them.

Modelling conventions.

* Go strings are modelled by Lean strings, that is as sequences of characters; indices
  and slices count characters (DNS names are ASCII, where bytes and characters coincide).
* A Go `error` is modelled by its message: `(T, error)` becomes `Except String T`, and
  `fmt.Errorf("...: %v", err)` becomes string concatenation.
* The collaborators outside the repository (the name.com HTTP API, the Kubernetes secret
  store, the recursive DNS lookup, `json.Unmarshal`, the `%q` verb of `fmt`) are parameters:
  each stateful one is a transition function on an arbitrary external state `σ`, which may
  answer differently from call to call.
* Every call to a stateful collaborator is recorded, in order, in `World.calls`.
* Pointers are modelled by the values they point to, so "the same client" is equality of
  clients; a response is never nil when its error is nil.
* The pagination loop of `findTxtRecords` has no bound in the source; its model takes a
  fuel argument and returns `none` when the fuel runs out before the loop has ended.
-/

/-! ## Library functions used by the source -/

namespace strings

/-- Go `strings.Index` on character lists: the index of the first occurrence of `substr`
in `s`, or `-1` when there is none. -/
def IndexList (substr : List Char) : List Char → Int
  | [] => if substr = [] then 0 else -1
  | c :: cs =>
    if substr <+: c :: cs then 0
    else
      let i := IndexList substr cs
      if i = -1 then -1 else i + 1

/-- Go `strings.Index(s, substr)`. -/
def Index (s substr : String) : Int :=
  IndexList substr.data s.data

end strings

namespace util

/-- The function `util.UnFqdn` of cert-manager: drops one trailing dot, if there is one.
```go
n := len(name)
if n != 0 && name[n-1] == '.' { return name[:n-1] }
return name
``` -/
def UnFqdn (name : String) : String :=
  let n := name.data.length
  if n ≠ 0 ∧ name.data[n - 1]? = some '.' then ⟨name.data.take (n - 1)⟩ else name

end util

/-! ## Data model -/

/-- The type `namecom.Record`. -/
structure Record where
  ID : Int
  DomainName : String
  Host : String
  Fqdn : String
  Type_ : String
  Answer : String
  TTL : Nat
  Priority : Nat
deriving DecidableEq

/-- The type `namecom.GetDomainRequest`. -/
structure GetDomainRequest where
  DomainName : String
deriving DecidableEq

/-- The type `namecom.Domain`; only its name is read by the source. -/
structure Domain where
  DomainName : String
deriving DecidableEq

/-- The type `namecom.ListRecordsRequest`. -/
structure ListRecordsRequest where
  DomainName : String
  PerPage : Int
  Page : Int
deriving DecidableEq

/-- The type `namecom.ListRecordsResponse`. -/
structure ListRecordsResponse where
  Records : List Record
  NextPage : Int
  LastPage : Int
deriving DecidableEq

/-- The type `namecom.DeleteRecordRequest`. -/
structure DeleteRecordRequest where
  DomainName : String
  ID : Int
deriving DecidableEq

/-- The remote name.com API as seen through one authenticated session: four operations,
each a transition on the external state `σ` that also yields a response or an error. -/
structure NameComAPI (σ : Type) where
  GetDomain : GetDomainRequest → σ → Except String Domain × σ
  ListRecords : ListRecordsRequest → σ → Except String ListRecordsResponse × σ
  CreateRecord : Record → σ → Except String Record × σ
  DeleteRecord : DeleteRecordRequest → σ → Except String Unit × σ

/-- One call to an external collaborator, as recorded in the call log. -/
inductive Call where
  | GetDomain (request : GetDomainRequest)
  | ListRecords (request : ListRecordsRequest)
  | CreateRecord (request : Record)
  | DeleteRecord (request : DeleteRecordRequest)
  | GetSecret (ns name : String)
  | FindZoneByFqdn (fqdn : String)
deriving DecidableEq

/-- Everything outside the process: the state of the external collaborators and the log of
the calls issued to them so far, oldest first. -/
structure World (σ : Type) where
  ext : σ
  calls : List Call

/-- Issue one call: run the collaborator's transition and append the call to the log. -/
def World.issue {σ α : Type} (w : World σ) (c : Call) (op : σ → Except String α × σ) :
    Except String α × World σ :=
  ((op w.ext).1, { ext := (op w.ext).2, calls := w.calls ++ [c] })

/-- The `DeleteRecord` requests of a call log, in order. -/
def deleteCalls : List Call → List DeleteRecordRequest
  | [] => []
  | Call.DeleteRecord request :: rest => request :: deleteCalls rest
  | _ :: rest => deleteCalls rest

/-- The secret lookups `(namespace, name)` of a call log, in order. -/
def secretCalls : List Call → List (String × String)
  | [] => []
  | Call.GetSecret ns name :: rest => (ns, name) :: secretCalls rest
  | _ :: rest => secretCalls rest

/-- The pages requested by the `ListRecords` calls of a call log, in order. -/
def listedPages : List Call → List Int
  | [] => []
  | Call.ListRecords request :: rest => request.Page :: listedPages rest
  | _ :: rest => listedPages rest

/-! ## `src/name/name.go` -/

/-- The type `namecom.NameCom` as built by `namecom.New`: the credentials of a session. -/
structure NameCom where
  User : String
  Token : String
deriving DecidableEq

/-- The type `NameDotComClient` of `name.go`. -/
structure NameDotComClient where
  dnsClient : NameCom
deriving DecidableEq

/-- The function `NewClient` of `name.go`; it never fails. -/
def NewClient (userName token : String) : Except String NameDotComClient :=
  .ok { dnsClient := { User := userName, Token := token } }

namespace NameDotComClient

variable {σ : Type}

/-- The method `extractRecordName` (name.go, lines 128-134). -/
def extractRecordName (fqdn domain : String) : String :=
  let name := util.UnFqdn fqdn
  let idx := strings.Index name ("." ++ domain)
  if idx ≠ -1 then ⟨name.data.take idx.toNat⟩ else name

/-- The method `newTxtRecord` (name.go, lines 76-84); unset fields have their zero value. -/
def newTxtRecord (zone fqdn value : String) : Record :=
  { ID := 0
    DomainName := zone
    Host := extractRecordName fqdn zone
    Fqdn := ""
    Type_ := "TXT"
    Answer := value
    TTL := 300
    Priority := 0 }

/-- The method `getHostedZone` (name.go, lines 64-74). -/
def getHostedZone (api : NameComAPI σ) (resolvedZone : String) (w : World σ) :
    Except String (String × String) × World σ :=
  match w.issue (Call.GetDomain { DomainName := resolvedZone })
      (api.GetDomain { DomainName := resolvedZone }) with
  | (.error err, w1) => (.error ("namecom: error describing domains: " ++ err), w1)
  | (.ok domain, w1) => (.ok ("", domain.DomainName), w1)

/-- The method `Present` (name.go, lines 22-37). -/
def Present (api : NameComAPI σ) (ResolvedZone ResolvedFQDN Key : String) (w : World σ) :
    Except String Unit × World σ :=
  match getHostedZone api ResolvedZone w with
  | (.error err, w1) => (.error ("alicloud: error getting hosted zones: " ++ err), w1)
  | (.ok (_, zoneName), w1) =>
    let recordAttributes := newTxtRecord zoneName ResolvedFQDN Key
    match w1.issue (Call.CreateRecord recordAttributes) (api.CreateRecord recordAttributes) with
    | (.error err, w2) => (.error ("namecom: error adding domain record: " ++ err), w2)
    | (.ok _, w2) => (.ok (), w2)

/-- The `for` loop of `findTxtRecords` (name.go, lines 101-116): request page `startPage`,
append its records, stop when `NextPage >= LastPage`, otherwise go on with `NextPage`.
One unit of fuel is spent per request. -/
def findTxtRecords.loop (api : NameComAPI σ) (request : ListRecordsRequest) :
    Nat → Int → List Record → World σ → Option (Except String (List Record) × World σ)
  | 0, _, _, _ => none
  | fuel + 1, startPage, records, w =>
    match w.issue (Call.ListRecords { request with Page := startPage })
        (api.ListRecords { request with Page := startPage }) with
    | (.error err, w1) => some (.error ("namecom: error describing record: " ++ err), w1)
    | (.ok response, w1) =>
      if response.NextPage ≥ response.LastPage then some (.ok (records ++ response.Records), w1)
      else findTxtRecords.loop api request fuel response.NextPage (records ++ response.Records) w1

/-- The method `findTxtRecords` (name.go, lines 86-126). -/
def findTxtRecords (api : NameComAPI σ) (fuel : Nat) (domain fqdn : String) (w : World σ) :
    Option (Except String (List Record) × World σ) :=
  match getHostedZone api domain w with
  | (.error err, w1) => some (.error err, w1)
  | (.ok (_, zoneName), w1) =>
    let request : ListRecordsRequest := { DomainName := zoneName, PerPage := 50, Page := 0 }
    let recordName := extractRecordName fqdn zoneName
    match findTxtRecords.loop api request fuel 1 [] w1 with
    | none => none
    | some (.error err, w2) => some (.error err, w2)
    | some (.ok records, w2) =>
      some (.ok (records.filter (fun record => decide (record.Host = recordName))), w2)

/-- The `for ... range records` loop of `CleanUp` (name.go, lines 49-60). -/
def CleanUp.loop (api : NameComAPI σ) (zone delKey : String) :
    List Record → World σ → Except String Unit × World σ
  | [], w => (.ok (), w)
  | rec :: rest, w =>
    if delKey = rec.Answer then
      match w.issue (Call.DeleteRecord { DomainName := zone, ID := rec.ID })
          (api.DeleteRecord { DomainName := zone, ID := rec.ID }) with
      | (.error err, w1) => (.error ("namecom: error deleting domain record: " ++ err), w1)
      | (.ok _, w1) => CleanUp.loop api zone delKey rest w1
    else CleanUp.loop api zone delKey rest w

/-- The method `CleanUp` (name.go, lines 39-62). -/
def CleanUp (api : NameComAPI σ) (fuel : Nat) (resolvedZone resolvedFQDN delKey : String)
    (w : World σ) : Option (Except String Unit × World σ) :=
  match findTxtRecords api fuel resolvedZone resolvedFQDN w with
  | none => none
  | some (.error err, w1) => some (.error ("cnamecom: error finding txt records: " ++ err), w1)
  | some (.ok records, w1) =>
    match getHostedZone api resolvedZone w1 with
    | (.error err, w2) => some (.error ("namecom: " ++ err), w2)
    | (.ok (_, zone), w2) => some (CleanUp.loop api zone delKey records w2)

end NameDotComClient

/-! ## `src/main.go` -/

/-- The type `cmmetav1.SecretKeySelector`: a secret name and a key of its data. -/
structure SecretKeySelector where
  Name : String
  Key : String
deriving DecidableEq

/-- The type `namecomDNSProviderConfig` of `main.go`. -/
structure namecomDNSProviderConfig where
  UsernameSecretRef : SecretKeySelector
  TokenSecretRef : SecretKeySelector
deriving DecidableEq

/-- The fields of `v1alpha1.ChallengeRequest` that the source reads; `Config` is the raw
JSON blob, `none` for a nil pointer. -/
structure ChallengeRequest where
  Key : String
  ResourceNamespace : String
  ResolvedFQDN : String
  ResolvedZone : String
  Config : Option String

/-- A Kubernetes secret: `Data` maps a key to its bytes, read as a string. -/
structure Secret where
  Data : String → Option String

/-- The collaborators of the solver. -/
structure Env (σ : Type) where
  /-- The call `c.client.CoreV1().Secrets(ns).Get(ctx, name, opts)`. -/
  GetSecret : String → String → σ → Except String Secret × σ
  /-- The call `util.FindZoneByFqdn(fqdn, util.RecursiveNameservers)`. -/
  FindZoneByFqdn : String → σ → Except String String × σ
  /-- The call `json.Unmarshal(raw, &cfg)` on a zero-valued config. -/
  Unmarshal : String → Except String namecomDNSProviderConfig
  /-- The verb `%q` of `fmt` applied to a string. -/
  Quote : String → String
  /-- The remote API as reached with the credentials of a client. -/
  remote : NameCom → NameComAPI σ

/-- The type `namecomDNSProviderSolver` of `main.go`: `dnsClients` is the `sync.Map` cache,
as a sequential map from domain to client (the Kubernetes clientset lives in `Env`). -/
structure namecomDNSProviderSolver where
  dnsClients : String → Option NameDotComClient

/-- The function `loadConfig` (main.go, lines 178-189). -/
def loadConfig {σ : Type} (env : Env σ) (cfgJSON : Option String) :
    Except String namecomDNSProviderConfig :=
  match cfgJSON with
  | none => .ok { UsernameSecretRef := { Name := "", Key := "" }
                  TokenSecretRef := { Name := "", Key := "" } }
  | some raw =>
    match env.Unmarshal raw with
    | .error err => .error ("error decoding solver config: " ++ err)
    | .ok cfg => .ok cfg

namespace namecomDNSProviderSolver

variable {σ : Type}

/-- The method `getSecretData` (main.go, lines 191-200). In the last `Errorf` the variable
`err` is nil, which `%v` prints as `<nil>`. -/
def getSecretData (env : Env σ) (selector : SecretKeySelector) (ns : String) (w : World σ) :
    Except String String × World σ :=
  match w.issue (Call.GetSecret ns selector.Name) (env.GetSecret ns selector.Name) with
  | (.error err, w1) =>
    (.error ("failed to get secret " ++ env.Quote (ns ++ "/" ++ selector.Name) ++ ": " ++ err), w1)
  | (.ok secret, w1) =>
    match secret.Data selector.Key with
    | some data => (.ok data, w1)
    | none =>
      (.error ("key not found in secret " ++ env.Quote (ns ++ "/" ++ selector.Name) ++ ": "
        ++ "<nil>"), w1)

/-- The method `dnsClient` (main.go, lines 105-127). -/
def dnsClient (env : Env σ) (c : namecomDNSProviderSolver) (domain : String)
    (cfg : namecomDNSProviderConfig) (ch : ChallengeRequest) (w : World σ) :
    Except String NameDotComClient × namecomDNSProviderSolver × World σ :=
  match c.dnsClients domain with
  | some v => (.ok v, c, w)
  | none =>
    match getSecretData env cfg.UsernameSecretRef ch.ResourceNamespace w with
    | (.error err, w1) => (.error err, c, w1)
    | (.ok username, w1) =>
      match getSecretData env cfg.TokenSecretRef ch.ResourceNamespace w1 with
      | (.error err, w2) => (.error err, c, w2)
      | (.ok token, w2) =>
        match NewClient username token with
        | .error err => (.error err, c, w2)
        | .ok client =>
          (.ok client, { dnsClients := Function.update c.dnsClients domain (some client) }, w2)

/-- The method `Present` (main.go, lines 85-103). -/
def Present (env : Env σ) (c : namecomDNSProviderSolver) (ch : ChallengeRequest) (w : World σ) :
    Except String Unit × namecomDNSProviderSolver × World σ :=
  match loadConfig env ch.Config with
  | .error err => (.error err, c, w)
  | .ok cfg =>
    match w.issue (Call.FindZoneByFqdn ch.ResolvedFQDN) (env.FindZoneByFqdn ch.ResolvedFQDN) with
    | (.error err, w1) => (.error err, c, w1)
    | (.ok zoneName, w1) =>
      let domainName := util.UnFqdn zoneName
      match dnsClient env c domainName cfg ch w1 with
      | (.error err, c2, w2) => (.error err, c2, w2)
      | (.ok client, c2, w2) =>
        let r := NameDotComClient.Present (env.remote client.dnsClient) domainName
          ch.ResolvedFQDN ch.Key w2
        (r.1, c2, r.2)

/-- The method `CleanUp` (main.go, lines 135-153). -/
def CleanUp (env : Env σ) (fuel : Nat) (c : namecomDNSProviderSolver) (ch : ChallengeRequest)
    (w : World σ) : Option (Except String Unit × namecomDNSProviderSolver × World σ) :=
  match loadConfig env ch.Config with
  | .error err => some (.error err, c, w)
  | .ok cfg =>
    match dnsClient env c ch.ResolvedZone cfg ch w with
    | (.error err, c1, w1) => some (.error err, c1, w1)
    | (.ok client, c1, w1) =>
      match w1.issue (Call.FindZoneByFqdn ch.ResolvedFQDN)
          (env.FindZoneByFqdn ch.ResolvedFQDN) with
      | (.error err, w2) => some (.error err, c1, w2)
      | (.ok zoneName, w2) =>
        let domainName := util.UnFqdn zoneName
        match NameDotComClient.CleanUp (env.remote client.dnsClient) fuel domainName
            ch.ResolvedFQDN ch.Key w2 with
        | none => none
        | some r => some (r.1, c1, r.2)

end namecomDNSProviderSolver

/-! ## Specification-side vocabulary -/

/-- The external state reached when `DeleteRecord` is issued for each request in turn and
every one of these calls succeeds; `none` as soon as one of them fails. -/
def deleteAllOk {σ : Type} (api : NameComAPI σ) : List DeleteRecordRequest → σ → Option σ
  | [], s => some s
  | request :: rest, s =>
    match (api.DeleteRecord request s).1 with
    | .ok _ => deleteAllOk api rest (api.DeleteRecord request s).2
    | .error _ => none

/-- The answers of a remote along a sweep of its pages. `Sweep api request s p responses s1`
holds when, from the external state `s`, the remote answers the `ListRecords` request for
page `p`, and then the request for each page it reports as `NextPage`, successfully with
`responses`, in this order, every response but the last reporting `NextPage < LastPage` and
the last one reporting `NextPage ≥ LastPage`; `s1` is the state after the last answer. -/
inductive Sweep {σ : Type} (api : NameComAPI σ) (request : ListRecordsRequest) :
    σ → Int → List ListRecordsResponse → σ → Prop where
  | last (s : σ) (p : Int) (r : ListRecordsResponse) :
      (api.ListRecords { request with Page := p } s).1 = .ok r →
      r.NextPage ≥ r.LastPage →
      Sweep api request s p [r] (api.ListRecords { request with Page := p } s).2
  | more (s : σ) (p : Int) (r : ListRecordsResponse) (rest : List ListRecordsResponse)
      (s1 : σ) :
      (api.ListRecords { request with Page := p } s).1 = .ok r →
      r.NextPage < r.LastPage →
      Sweep api request (api.ListRecords { request with Page := p } s).2 r.NextPage rest s1 →
      Sweep api request s p (r :: rest) s1

/-- The solver after any number of further `dnsClient` calls: `Later env c c2` holds when
`c2` is the solver that `c` has become after a sequence of `dnsClient` calls, for any
domains, configurations and requests, each in any world. -/
inductive namecomDNSProviderSolver.Later {σ : Type} (env : Env σ) :
    namecomDNSProviderSolver → namecomDNSProviderSolver → Prop where
  | refl (c : namecomDNSProviderSolver) : Later env c c
  | step (c c1 : namecomDNSProviderSolver) (domain : String) (cfg : namecomDNSProviderConfig)
      (ch : ChallengeRequest) (w : World σ) :
      Later env c c1 →
      Later env c (namecomDNSProviderSolver.dnsClient env c1 domain cfg ch w).2.1

/-! ## Concrete collaborators for worked runs -/

/-- A fake name.com account whose state is the record set of its zone. Records are listed
in pages of `pageSize` whatever `PerPage` asks for; with `L` the number of pages, page
`p < L` reports `NextPage = p + 1` and `LastPage = L`, and the last page leaves both at
zero (name.com fills them in only while a further page exists). Deleting a record whose id
is in `locked`, or an unknown record, fails. -/
def fakeRemote (pageSize : Nat) (locked : List Int) : NameComAPI (List Record) where
  GetDomain request s := (.ok { DomainName := request.DomainName }, s)
  ListRecords request s :=
    (.ok { Records := (s.drop ((request.Page.toNat - 1) * pageSize)).take pageSize
           NextPage :=
             if request.Page < Int.ofNat ((s.length + pageSize - 1) / pageSize)
             then request.Page + 1 else 0
           LastPage :=
             if request.Page < Int.ofNat ((s.length + pageSize - 1) / pageSize)
             then Int.ofNat ((s.length + pageSize - 1) / pageSize) else 0 }, s)
  CreateRecord request s :=
    (.ok { request with ID := Int.ofNat s.length + 1 },
      s ++ [{ request with ID := Int.ofNat s.length + 1 }])
  DeleteRecord request s :=
    if request.ID ∈ locked then (.error "record is locked", s)
    else if s.any (fun r => decide (r.ID = request.ID)) then
      (.ok (), s.filter (fun r => decide (r.ID ≠ request.ID)))
    else (.error "record not found", s)

/-- A remote without any record whose paging markers never end a sweep: every call
succeeds, and every `ListRecords` answer is an empty page reporting `NextPage = 1` and
`LastPage = 2`. -/
def loopingRemote : NameComAPI Unit where
  GetDomain request s := (.ok { DomainName := request.DomainName }, s)
  ListRecords _ s := (.ok { Records := [], NextPage := 1, LastPage := 2 }, s)
  CreateRecord request s := (.ok request, s)
  DeleteRecord _ s := (.ok (), s)

/-- A TXT record of the zone `example.com`. -/
def txt (id : Int) (host answer : String) : Record :=
  { ID := id
    DomainName := "example.com"
    Host := host
    Fqdn := host ++ ".example.com."
    Type_ := "TXT"
    Answer := answer
    TTL := 300
    Priority := 0 }

/-- Five TXT records at the host `_acme-challenge`. -/
def fiveRecords : List Record :=
  [txt 1 "_acme-challenge" "v1", txt 2 "_acme-challenge" "v2", txt 3 "_acme-challenge" "v3",
   txt 4 "_acme-challenge" "v4", txt 5 "_acme-challenge" "v5"]

/-- The secret `cert-manager/namecom-credentials`, with keys `username` and `token`. -/
def fakeSecret : Secret where
  Data key :=
    if key = "username" then some "alice"
    else if key = "token" then some "t0k3n"
    else none

/-- The configuration pointing at `fakeSecret`. -/
def fakeConfig : namecomDNSProviderConfig :=
  { UsernameSecretRef := { Name := "namecom-credentials", Key := "username" }
    TokenSecretRef := { Name := "namecom-credentials", Key := "token" } }

/-- A fake cluster: one secret, every name resolved to the zone `example.com.`, a remote
listing in pages of two, and `%q` as plain double quotes. -/
def fakeEnv : Env (List Record) where
  GetSecret ns name s :=
    if ns = "cert-manager" ∧ name = "namecom-credentials" then (.ok fakeSecret, s)
    else (.error ("secrets " ++ "\"" ++ name ++ "\"" ++ " not found"), s)
  FindZoneByFqdn _ s := (.ok "example.com.", s)
  Unmarshal _ := .ok fakeConfig
  Quote s := "\"" ++ s ++ "\""
  remote _ := fakeRemote 2 []

/-- A challenge for `_acme-challenge.example.com.` as cert-manager sends it: the resolved
zone carries its trailing dot. -/
def fakeChallenge : ChallengeRequest :=
  { Key := "v1"
    ResourceNamespace := "cert-manager"
    ResolvedFQDN := "_acme-challenge.example.com."
    ResolvedZone := "example.com."
    Config := some "config" }

/-- The fake cluster before any challenge: an empty client cache. -/
def emptySolver : namecomDNSProviderSolver :=
  { dnsClients := fun _ => none }

/-- The fake cluster before any challenge: no record at the remote, no call issued. -/
def emptyWorld : World (List Record) :=
  { ext := [], calls := [] }

/-- The client built from the credentials of `fakeSecret`. -/
def aliceClient : NameDotComClient :=
  { dnsClient := { User := "alice", Token := "t0k3n" } }

/-- The outcome of the solver's `Present` for `fakeChallenge` on the fresh fake cluster. -/
def afterPresent : Except String Unit × namecomDNSProviderSolver × World (List Record) :=
  namecomDNSProviderSolver.Present fakeEnv emptySolver fakeChallenge emptyWorld

/-- A configuration whose username reference names a secret that does not exist. -/
def missingSecretConfig : namecomDNSProviderConfig :=
  { UsernameSecretRef := { Name := "no-such-secret", Key := "username" }
    TokenSecretRef := { Name := "namecom-credentials", Key := "token" } }

/-- The outcome of a first `dnsClient` call for `example.com` on the fresh fake cluster. -/
def afterFirstLookup :
    Except String NameDotComClient × namecomDNSProviderSolver × World (List Record) :=
  namecomDNSProviderSolver.dnsClient fakeEnv emptySolver "example.com" fakeConfig fakeChallenge
    emptyWorld

/-! ## Theorems -/

/-! ### Substring search -/

namespace strings

/-- The result of `IndexList` is `-1` or a position. -/
theorem IndexList_ge (substr s : List Char) : -1 ≤ IndexList substr s := by
  induction s with
  | nil => unfold IndexList; split <;> simp
  | cons c cs ih =>
    unfold IndexList
    split
    · simp
    · simp only []
      split
      · simp
      · omega

/-- The result of `IndexList` is `-1` exactly when `substr` occurs nowhere in `s`. -/
theorem IndexList_eq_neg_one (substr s : List Char) :
    IndexList substr s = -1 ↔ ¬ substr <:+: s := by
  induction s with
  | nil =>
    unfold IndexList
    by_cases h : substr = [] <;> simp [h]
  | cons c cs ih =>
    have hge := IndexList_ge substr cs
    unfold IndexList
    rw [List.infix_cons_iff]
    by_cases hp : substr <+: c :: cs
    · simp [hp]
    · simp only [hp, if_false, false_or]
      rw [← ih]
      by_cases hi : IndexList substr cs = -1
      · simp [hi]
      · simp only [hi, if_false, iff_false]; omega

/-- The value of `IndexList`, when it is not `-1`, is the first position at which `substr`
starts. -/
theorem IndexList_eq_iff (substr s : List Char) (i : Nat) :
    IndexList substr s = (i : Int) ↔
      (substr <+: s.drop i ∧ i ≤ s.length ∧ ∀ j < i, ¬ substr <+: s.drop j) := by
  induction s generalizing i with
  | nil =>
    unfold IndexList
    by_cases h : substr = []
    · subst h
      simp only [if_true, List.drop_nil, List.nil_prefix, true_and, List.length_nil,
        Nat.le_zero_eq, not_true_eq_false]
      constructor
      · intro h
        have h0 : i = 0 := by exact_mod_cast h.symm
        subst h0; simp
      · rintro ⟨h, _⟩; simp [h]
    · simp [h]
  | cons c cs ih =>
    have hge := IndexList_ge substr cs
    unfold IndexList
    by_cases hp : substr <+: c :: cs
    · simp only [hp, if_true]
      constructor
      · intro h
        have h0 : i = 0 := by exact_mod_cast h.symm
        subst h0; simp [hp]
      · rintro ⟨_, _, h3⟩
        by_contra hne
        have hi : 0 < i := by
          rcases Nat.eq_zero_or_pos i with h | h
          · subst h; simp at hne
          · exact h
        exact h3 0 hi (by simpa using hp)
    · simp only [hp, if_false]
      by_cases hi : IndexList substr cs = -1
      · simp only [hi, if_true]
        have hninf := (IndexList_eq_neg_one substr cs).1 hi
        constructor
        · intro h; omega
        · rintro ⟨h1, h2, _⟩
          exfalso
          cases i with
          | zero => exact hp (by simpa using h1)
          | succ k =>
            simp only [List.drop_succ_cons] at h1
            exact hninf (List.IsInfix.trans h1.isInfix (List.drop_suffix k cs).isInfix)
      · simp only [hi, if_false]
        cases i with
        | zero =>
          simp only [List.drop_zero]
          constructor
          · intro h; exfalso; push_cast at h; omega
          · rintro ⟨h1, _⟩; exact absurd h1 hp
        | succ k =>
          have hk := ih k
          simp only [List.drop_succ_cons, List.length_cons]
          constructor
          · intro h
            have hv : IndexList substr cs = (k : Int) := by push_cast at h; omega
            obtain ⟨a, b, c1⟩ := hk.1 hv
            refine ⟨a, by omega, ?_⟩
            intro j hj
            cases j with
            | zero => simpa using hp
            | succ j1 => simpa using c1 j1 (by omega)
          · rintro ⟨a, b, c1⟩
            have hv : IndexList substr cs = (k : Int) := by
              apply hk.2
              refine ⟨a, by omega, ?_⟩
              intro j hj
              have := c1 (j + 1) (by omega)
              simpa using this
            push_cast; omega

end strings

/-! ### Host-label extraction -/

/-- Where the extraction is right: when the dot-stripped name is `label ++ "." ++ zone` and
`"." ++ zone` starts at no earlier position of it, `extractRecordName` returns `label`. -/
theorem extractRecordName_strips_zone (fqdn zone label : String)
    (hname : util.UnFqdn fqdn = label ++ ("." ++ zone))
    (hfirst : ∀ j < label.data.length,
      ¬ ("." ++ zone).data <+: (util.UnFqdn fqdn).data.drop j) :
    NameDotComClient.extractRecordName fqdn zone = label := by
  have hdata : (util.UnFqdn fqdn).data = label.data ++ ("." ++ zone).data := by
    rw [hname, String.data_append]
  have hidx : strings.Index (util.UnFqdn fqdn) ("." ++ zone) = (label.data.length : Int) := by
    unfold strings.Index
    rw [strings.IndexList_eq_iff]
    refine ⟨?_, ?_, hfirst⟩
    · rw [hdata, List.drop_left]
    · rw [hdata]; simp
  have hne : (label.data.length : Int) ≠ -1 := by omega
  simp only [NameDotComClient.extractRecordName, hidx, ne_eq, hne, not_false_eq_true, if_true,
    Int.toNat_ofNat]
  rw [hdata, List.take_left]

/-- The example of the specification: zone `example.com` under
`_acme-challenge.foo.example.com.` gives the label `_acme-challenge.foo`. -/
theorem extractRecordName_strips_zone_witness :
    NameDotComClient.extractRecordName "_acme-challenge.foo.example.com." "example.com"
      = "_acme-challenge.foo" :=
  extractRecordName_strips_zone "_acme-challenge.foo.example.com." "example.com"
    "_acme-challenge.foo" (by decide) (by decide)

/-- Claim C3, evaluated on the code: the dot-stripped form of
`_acme-challenge.example.com.example.co.` is the label `_acme-challenge.example.com`
followed by `.example.co`, yet under the zone `example.co` the extracted label is
`_acme-challenge`, because the search stops at the first occurrence of `.example.co`
(inside `.example.com`). -/
theorem extractRecordName_stops_at_first_occurrence :
    util.UnFqdn "_acme-challenge.example.com.example.co."
        = "_acme-challenge.example.com" ++ "." ++ "example.co"
      ∧ NameDotComClient.extractRecordName "_acme-challenge.example.com.example.co."
          "example.co" = "_acme-challenge"
      ∧ NameDotComClient.extractRecordName "_acme-challenge.example.com.example.co."
          "example.co" ≠ "_acme-challenge.example.com" := by
  decide

/-- Claim C4 as stated fails: the dot-stripped name `_acme-challenge.example.com.evil.org`
does not end with `.example.com`, yet the result is not the whole name but
`_acme-challenge`. -/
theorem extractRecordName_fallback_counterexample :
    ¬ ("." ++ "example.com").data <:+ (util.UnFqdn "_acme-challenge.example.com.evil.org.").data
      ∧ NameDotComClient.extractRecordName "_acme-challenge.example.com.evil.org."
          "example.com" = "_acme-challenge"
      ∧ NameDotComClient.extractRecordName "_acme-challenge.example.com.evil.org."
          "example.com" ≠ util.UnFqdn "_acme-challenge.example.com.evil.org." := by
  decide

/-- Claim C4, amended: when `"." ++ zone` occurs nowhere in the dot-stripped name,
`extractRecordName` returns the whole dot-stripped name. -/
theorem extractRecordName_fallback (fqdn zone : String)
    (h : ¬ ("." ++ zone).data <:+: (util.UnFqdn fqdn).data) :
    NameDotComClient.extractRecordName fqdn zone = util.UnFqdn fqdn := by
  have hi : strings.Index (util.UnFqdn fqdn) ("." ++ zone) = -1 :=
    (strings.IndexList_eq_neg_one _ _).2 h
  simp [NameDotComClient.extractRecordName, hi]

/-- Claim C4, the example of the specification: zone `other.com` does not occur in
`_acme-challenge.example.com`, which is returned whole. -/
theorem extractRecordName_fallback_witness :
    NameDotComClient.extractRecordName "_acme-challenge.example.com." "other.com"
      = "_acme-challenge.example.com" :=
  extractRecordName_fallback "_acme-challenge.example.com." "other.com" (by decide)

/-! ### Call logs -/

/-- The `DeleteRecord` requests of two logs put end to end. -/
theorem deleteCalls_append (a b : List Call) :
    deleteCalls (a ++ b) = deleteCalls a ++ deleteCalls b := by
  induction a with
  | nil => rfl
  | cons c cs ih => cases c <;> simp [deleteCalls, ih]

/-- A log made of `DeleteRecord` calls only holds exactly their requests. -/
theorem deleteCalls_map_requests {α : Type} (f : α → DeleteRecordRequest) (l : List α) :
    deleteCalls (l.map (fun r => Call.DeleteRecord (f r))) = l.map f := by
  induction l with
  | nil => rfl
  | cons c cs ih => simp [deleteCalls, ih]

/-- The pages requested in two logs put end to end. -/
theorem listedPages_append (a b : List Call) :
    listedPages (a ++ b) = listedPages a ++ listedPages b := by
  induction a with
  | nil => rfl
  | cons c cs ih => cases c <;> simp [listedPages, ih]

namespace NameDotComClient

variable {σ : Type}

/-! ### `getHostedZone` -/

/-- The method `getHostedZone` when `GetDomain` succeeds. -/
theorem getHostedZone_ok (api : NameComAPI σ) (zone : String) (w : World σ) (d : Domain)
    (h : (api.GetDomain { DomainName := zone } w.ext).1 = .ok d) :
    getHostedZone api zone w
      = (.ok ("", d.DomainName),
          { ext := (api.GetDomain { DomainName := zone } w.ext).2
            calls := w.calls ++ [Call.GetDomain { DomainName := zone }] }) := by
  simp [getHostedZone, World.issue, h]

/-- The method `getHostedZone` when `GetDomain` fails. -/
theorem getHostedZone_error (api : NameComAPI σ) (zone : String) (w : World σ) (e : String)
    (h : (api.GetDomain { DomainName := zone } w.ext).1 = .error e) :
    getHostedZone api zone w
      = (.error ("namecom: error describing domains: " ++ e),
          { ext := (api.GetDomain { DomainName := zone } w.ext).2
            calls := w.calls ++ [Call.GetDomain { DomainName := zone }] }) := by
  simp [getHostedZone, World.issue, h]

end NameDotComClient

/-! ### `Present` of the record manager -/

/-- Claim C6: when `GetDomain(zone)` succeeds with the domain name `d`, `Present` issues,
after that call, exactly one further call, a `CreateRecord` whose request has
`DomainName = d`, `Host = extractRecordName(fqdn, d)`, `Type = "TXT"`, `Answer = value` and
`TTL = 300`, and it returns success exactly when that call succeeds; when `GetDomain` fails,
`Present` returns an error and issues no `CreateRecord` call. -/
theorem Present_creates_exactly_one_record {σ : Type} (api : NameComAPI σ)
    (zone fqdn value : String) (w : World σ) :
    match (api.GetDomain { DomainName := zone } w.ext).1 with
    | .ok domain =>
      (NameDotComClient.Present api zone fqdn value w).2.calls
          = w.calls ++ [Call.GetDomain { DomainName := zone },
              Call.CreateRecord
                { ID := 0
                  DomainName := domain.DomainName
                  Host := NameDotComClient.extractRecordName fqdn domain.DomainName
                  Fqdn := ""
                  Type_ := "TXT"
                  Answer := value
                  TTL := 300
                  Priority := 0 }]
        ∧ ((NameDotComClient.Present api zone fqdn value w).1 = .ok () ↔
            ∃ created, (api.CreateRecord
                { ID := 0
                  DomainName := domain.DomainName
                  Host := NameDotComClient.extractRecordName fqdn domain.DomainName
                  Fqdn := ""
                  Type_ := "TXT"
                  Answer := value
                  TTL := 300
                  Priority := 0 }
                (api.GetDomain { DomainName := zone } w.ext).2).1 = .ok created)
    | .error e =>
      (NameDotComClient.Present api zone fqdn value w).1
          = .error ("alicloud: error getting hosted zones: "
              ++ ("namecom: error describing domains: " ++ e))
        ∧ (NameDotComClient.Present api zone fqdn value w).2.calls
          = w.calls ++ [Call.GetDomain { DomainName := zone }] := by
  rcases hdom : (api.GetDomain { DomainName := zone } w.ext).1 with e | domain
  · simp [NameDotComClient.Present, NameDotComClient.getHostedZone_error api zone w e hdom]
  · simp only [NameDotComClient.Present,
      NameDotComClient.getHostedZone_ok api zone w domain hdom, NameDotComClient.newTxtRecord,
      World.issue]
    rcases hcreate : (api.CreateRecord
        { ID := 0
          DomainName := domain.DomainName
          Host := NameDotComClient.extractRecordName fqdn domain.DomainName
          Fqdn := ""
          Type_ := "TXT"
          Answer := value
          TTL := 300
          Priority := 0 }
        (api.GetDomain { DomainName := zone } w.ext).2).1 with e | created
    · simp
    · simp

/-- Claim C6, a concrete run on the fake remote: `Present` succeeds and the one record it
creates is the TXT record at `_acme-challenge` with the value and a TTL of 300. -/
theorem Present_creates_exactly_one_record_witness :
    (NameDotComClient.Present (fakeRemote 2 []) "example.com" "_acme-challenge.example.com."
        "v1" emptyWorld).1 = .ok ()
      ∧ (NameDotComClient.Present (fakeRemote 2 []) "example.com" "_acme-challenge.example.com."
          "v1" emptyWorld).2.calls
        = [Call.GetDomain { DomainName := "example.com" },
            Call.CreateRecord
              { ID := 0
                DomainName := "example.com"
                Host := "_acme-challenge"
                Fqdn := ""
                Type_ := "TXT"
                Answer := "v1"
                TTL := 300
                Priority := 0 }] :=
  have h : (NameDotComClient.Present (fakeRemote 2 []) "example.com"
        "_acme-challenge.example.com." "v1" emptyWorld).2.calls
        = [] ++ [Call.GetDomain { DomainName := "example.com" },
            Call.CreateRecord
              { ID := 0
                DomainName := "example.com"
                Host := NameDotComClient.extractRecordName "_acme-challenge.example.com."
                  "example.com"
                Fqdn := ""
                Type_ := "TXT"
                Answer := "v1"
                TTL := 300
                Priority := 0 }]
      ∧ ((NameDotComClient.Present (fakeRemote 2 []) "example.com"
          "_acme-challenge.example.com." "v1" emptyWorld).1 = .ok () ↔
          ∃ created, ((fakeRemote 2 []).CreateRecord
              { ID := 0
                DomainName := "example.com"
                Host := NameDotComClient.extractRecordName "_acme-challenge.example.com."
                  "example.com"
                Fqdn := ""
                Type_ := "TXT"
                Answer := "v1"
                TTL := 300
                Priority := 0 } []).1 = .ok created) :=
    Present_creates_exactly_one_record (fakeRemote 2 []) "example.com"
      "_acme-challenge.example.com." "v1" emptyWorld
  ⟨h.2.2 ⟨_, rfl⟩, h.1.trans (by decide)⟩

/-! ### The pagination loop -/

namespace NameDotComClient

variable {σ : Type}

/-- More fuel does not change the outcome of a pagination loop that has ended. -/
theorem findTxtRecords_loop_mono (api : NameComAPI σ) (request : ListRecordsRequest)
    (fuel : Nat) (startPage : Int) (records : List Record) (w : World σ)
    (r : Except String (List Record) × World σ)
    (h : findTxtRecords.loop api request fuel startPage records w = some r) (more : Nat) :
    findTxtRecords.loop api request (fuel + more) startPage records w = some r := by
  induction fuel generalizing startPage records w with
  | zero => simp [findTxtRecords.loop] at h
  | succ n ih =>
    rw [Nat.succ_add]
    unfold findTxtRecords.loop at h ⊢
    rcases hres : (api.ListRecords { request with Page := startPage } w.ext).1 with e | resp
    · simpa [World.issue, hres] using h
    · simp only [World.issue, hres] at h ⊢
      split at h
      · rename_i hge; simpa [hge] using h
      · rename_i hlt
        simp only [hlt, if_false]
        exact ih _ _ _ h

/-- The pagination loop issues `ListRecords` calls only. -/
theorem findTxtRecords_loop_deleteCalls (api : NameComAPI σ) (request : ListRecordsRequest)
    (fuel : Nat) (startPage : Int) (records : List Record) (w : World σ)
    (r : Except String (List Record) × World σ)
    (h : findTxtRecords.loop api request fuel startPage records w = some r) :
    deleteCalls r.2.calls = deleteCalls w.calls := by
  induction fuel generalizing startPage records w with
  | zero => simp [findTxtRecords.loop] at h
  | succ n ih =>
    unfold findTxtRecords.loop at h
    rcases hres : (api.ListRecords { request with Page := startPage } w.ext).1 with e | resp
    · simp only [World.issue, hres, Option.some.injEq] at h
      subst h
      simp [deleteCalls_append, deleteCalls]
    · simp only [World.issue, hres] at h
      split at h
      · simp only [Option.some.injEq] at h
        subst h
        simp [deleteCalls_append, deleteCalls]
      · rw [ih _ _ _ h]
        simp [deleteCalls_append, deleteCalls]

/-- From page `p`, when in every state of a set closed under `ListRecords` each page `q < L`
answers `NextPage = q + 1` and `LastPage = L`, the loop ends after requesting the pages
`p, ..., L - 1` and nothing else. -/
theorem findTxtRecords_loop_pages (api : NameComAPI σ) (request : ListRecordsRequest) (L : Nat)
    (inv : σ → Prop)
    (hinv : ∀ r s, inv s → inv (api.ListRecords r s).2)
    (hpages : ∀ (q : Nat) (s : σ), inv s → 1 ≤ q → q < L →
      ∃ recs, (api.ListRecords { request with Page := Int.ofNat q } s).1
        = .ok { Records := recs, NextPage := Int.ofNat q + 1, LastPage := Int.ofNat L })
    (k p : Nat) (hp : 1 ≤ p) (hk : p + k + 1 = L) (records : List Record) (w : World σ)
    (hw : inv w.ext) :
    ∃ recs w1, findTxtRecords.loop api request (k + 1) (Int.ofNat p) records w
        = some (.ok recs, w1)
      ∧ listedPages w1.calls = listedPages w.calls ++ (List.range' p (k + 1)).map Int.ofNat := by
  induction k generalizing p records w with
  | zero =>
    obtain ⟨recs, hrecs⟩ := hpages p w.ext hw hp (by omega)
    have hge : Int.ofNat p + 1 ≥ Int.ofNat L := by
      have : (p : Int) + 1 ≥ (L : Int) := by omega
      exact this
    refine ⟨records ++ recs,
      { ext := (api.ListRecords { request with Page := Int.ofNat p } w.ext).2
        calls := w.calls ++ [Call.ListRecords { request with Page := Int.ofNat p }] }, ?_, ?_⟩
    · simp only [findTxtRecords.loop, World.issue, hrecs, hge, if_true]
    · simp [listedPages_append, listedPages]
  | succ n ih =>
    obtain ⟨recs, hrecs⟩ := hpages p w.ext hw hp (by omega)
    have hlt : ¬ Int.ofNat p + 1 ≥ Int.ofNat L := by
      have : ¬ (p : Int) + 1 ≥ (L : Int) := by omega
      exact this
    obtain ⟨recs2, w2, hloop, hcalls⟩ := ih (p + 1) (by omega) (by omega) (records ++ recs)
      { ext := (api.ListRecords { request with Page := Int.ofNat p } w.ext).2
        calls := w.calls ++ [Call.ListRecords { request with Page := Int.ofNat p }] }
      (hinv _ _ hw)
    refine ⟨recs2, w2, ?_, ?_⟩
    · rw [findTxtRecords.loop]
      simp only [World.issue, hrecs, hlt, if_false]
      exact hloop
    · rw [hcalls]
      simp [listedPages_append, listedPages, List.range'_succ]

end NameDotComClient

/-- The skipped last page, in general: when the remote serves `L ≥ 2` pages and, in
every state of a set closed under `ListRecords`, each page `q < L` answers
`NextPage = q + 1` and `LastPage = L`, the loop of `findTxtRecords` ends after requesting
the pages `1, ..., L - 1`; page `L` is never requested. -/
theorem findTxtRecords_loop_never_requests_the_last_page {σ : Type} (api : NameComAPI σ)
    (request : ListRecordsRequest) (L : Nat) (hL : 2 ≤ L) (inv : σ → Prop)
    (hinv : ∀ r s, inv s → inv (api.ListRecords r s).2)
    (hpages : ∀ (q : Nat) (s : σ), inv s → 1 ≤ q → q < L →
      ∃ recs, (api.ListRecords { request with Page := Int.ofNat q } s).1
        = .ok { Records := recs, NextPage := Int.ofNat q + 1, LastPage := Int.ofNat L })
    (w : World σ) (hw : inv w.ext) :
    ∃ recs w1, NameDotComClient.findTxtRecords.loop api request (L - 1) 1 [] w
        = some (.ok recs, w1)
      ∧ listedPages w1.calls = listedPages w.calls ++ (List.range' 1 (L - 1)).map Int.ofNat
      ∧ Int.ofNat L ∉ (List.range' 1 (L - 1)).map Int.ofNat := by
  obtain ⟨recs, w1, h1, h2⟩ := NameDotComClient.findTxtRecords_loop_pages api request L inv
    hinv hpages (L - 2) 1 (le_refl 1) (by omega) [] w hw
  have hfuel : L - 2 + 1 = L - 1 := by omega
  rw [hfuel] at h1 h2
  refine ⟨recs, w1, h1, h2, ?_⟩
  simp only [List.mem_map, List.mem_range', not_exists, not_and]
  rintro q ⟨i, hi, rfl⟩ hq
  have : 1 + 1 * i = L := Int.ofNat.inj hq
  omega

/-- The general statement at the fake remote with its five records in three pages. -/
theorem findTxtRecords_loop_never_requests_the_last_page_witness :
    ∃ recs w1, NameDotComClient.findTxtRecords.loop (fakeRemote 2 [])
        { DomainName := "example.com", PerPage := 50, Page := 0 } 2 1 []
        { ext := fiveRecords, calls := [] } = some (.ok recs, w1)
      ∧ listedPages w1.calls = [1, 2] := by
  obtain ⟨recs, w1, h1, h2, _⟩ := findTxtRecords_loop_never_requests_the_last_page
    (fakeRemote 2 []) { DomainName := "example.com", PerPage := 50, Page := 0 } 3 (by decide)
    (fun s => s = fiveRecords) (fun _ _ hs => hs)
    (fun q s hs hq1 hq3 => by
      subst hs
      have hq : q = 1 ∨ q = 2 := by omega
      rcases hq with rfl | rfl
      · exact ⟨[txt 1 "_acme-challenge" "v1", txt 2 "_acme-challenge" "v2"], rfl⟩
      · exact ⟨[txt 3 "_acme-challenge" "v3", txt 4 "_acme-challenge" "v4"], rfl⟩)
    { ext := fiveRecords, calls := [] } rfl
  exact ⟨recs, w1, h1, h2⟩

/-- Claim C1, evaluated on the code: the fake remote serves five records with the same host
in three pages of two (page 1 reports `NextPage = 2`, `LastPage = 3`; page 2 reports
`NextPage = 3`, `LastPage = 3`), every call succeeds, and `findTxtRecords` returns the four
records of pages 1 and 2 only: page 3 is never requested, whatever the fuel. -/
theorem findTxtRecords_skips_the_last_page :
    ((fakeRemote 2 []).ListRecords { DomainName := "example.com", PerPage := 50, Page := 1 }
          fiveRecords).1
        = .ok { Records := [txt 1 "_acme-challenge" "v1", txt 2 "_acme-challenge" "v2"]
                NextPage := 2
                LastPage := 3 }
      ∧ ((fakeRemote 2 []).ListRecords { DomainName := "example.com", PerPage := 50, Page := 2 }
          fiveRecords).1
        = .ok { Records := [txt 3 "_acme-challenge" "v3", txt 4 "_acme-challenge" "v4"]
                NextPage := 3
                LastPage := 3 }
      ∧ ((fakeRemote 2 []).ListRecords { DomainName := "example.com", PerPage := 50, Page := 3 }
          fiveRecords).1
        = .ok { Records := [txt 5 "_acme-challenge" "v5"], NextPage := 0, LastPage := 0 }
      ∧ (∀ r ∈ fiveRecords,
          r.Host = NameDotComClient.extractRecordName "_acme-challenge.example.com."
            "example.com")
      ∧ (∀ fuel, NameDotComClient.findTxtRecords (fakeRemote 2 []) (fuel + 2) "example.com"
          "_acme-challenge.example.com." { ext := fiveRecords, calls := [] }
        = some (.ok [txt 1 "_acme-challenge" "v1", txt 2 "_acme-challenge" "v2",
              txt 3 "_acme-challenge" "v3", txt 4 "_acme-challenge" "v4"],
            { ext := fiveRecords
              calls := [Call.GetDomain { DomainName := "example.com" },
                Call.ListRecords { DomainName := "example.com", PerPage := 50, Page := 1 },
                Call.ListRecords { DomainName := "example.com", PerPage := 50, Page := 2 }] })) :=
  ⟨rfl, rfl, rfl, by decide, fun _ => rfl⟩

/-! ### The delete loop -/

namespace NameDotComClient

variable {σ : Type}

/-- When `DeleteRecord` succeeds whatever the request and the state, every sequence of
deletes succeeds. -/
theorem deleteAllOk_of_always_ok (api : NameComAPI σ)
    (hdelete : ∀ request s, (api.DeleteRecord request s).1 = .ok ())
    (requests : List DeleteRecordRequest) (s : σ) :
    ∃ s1, deleteAllOk api requests s = some s1 := by
  induction requests generalizing s with
  | nil => exact ⟨s, rfl⟩
  | cons r rs ih =>
    simp only [deleteAllOk, hdelete]
    exact ih _

/-- The delete loop when the deletes of all records with the key succeed. -/
theorem CleanUp_loop_ok (api : NameComAPI σ) (zone delKey : String) (records : List Record)
    (w : World σ) (s : σ)
    (h : deleteAllOk api
        ((records.filter (fun r => decide (r.Answer = delKey))).map
          (fun r => { DomainName := zone, ID := r.ID })) w.ext = some s) :
    CleanUp.loop api zone delKey records w
      = (.ok (),
          { ext := s
            calls := w.calls ++ (records.filter (fun r => decide (r.Answer = delKey))).map
              (fun r => Call.DeleteRecord { DomainName := zone, ID := r.ID }) }) := by
  induction records generalizing w with
  | nil =>
    simp only [List.filter_nil, List.map_nil, deleteAllOk, Option.some.injEq] at h
    simp [CleanUp.loop, ← h]
  | cons r rs ih =>
    unfold CleanUp.loop
    by_cases hk : delKey = r.Answer
    · have hk2 : r.Answer = delKey := hk.symm
      simp only [List.filter_cons, hk2, decide_True, if_true, List.map_cons, deleteAllOk] at h
      rcases hres : (api.DeleteRecord { DomainName := zone, ID := r.ID } w.ext).1 with e | u
      · simp [hres] at h
      · simp only [hres] at h
        rw [if_pos hk]
        simp only [World.issue, hres]
        rw [ih ⟨_, _⟩ h]
        simp [List.filter_cons, hk2]
    · have hk2 : ¬ r.Answer = delKey := fun h => hk h.symm
      simp only [List.filter_cons, hk2, decide_False] at h
      rw [if_neg hk, ih w (by simpa using h)]
      simp [List.filter_cons, hk2]

/-- The delete loop when the first failing delete is that of `m`. -/
theorem CleanUp_loop_error (api : NameComAPI σ) (zone delKey e : String)
    (records pre post : List Record) (m : Record) (w : World σ) (s : σ)
    (hmatch : records.filter (fun r => decide (r.Answer = delKey)) = pre ++ m :: post)
    (hpre : deleteAllOk api (pre.map (fun r => { DomainName := zone, ID := r.ID })) w.ext
      = some s)
    (hfail : (api.DeleteRecord { DomainName := zone, ID := m.ID } s).1 = .error e) :
    CleanUp.loop api zone delKey records w
      = (.error ("namecom: error deleting domain record: " ++ e),
          { ext := (api.DeleteRecord { DomainName := zone, ID := m.ID } s).2
            calls := w.calls ++ (pre ++ [m]).map
              (fun r => Call.DeleteRecord { DomainName := zone, ID := r.ID }) }) := by
  induction records generalizing w pre with
  | nil => simp at hmatch
  | cons r rs ih =>
    unfold CleanUp.loop
    by_cases hk : delKey = r.Answer
    · have hk2 : r.Answer = delKey := hk.symm
      simp only [List.filter_cons, hk2, decide_True, if_true] at hmatch
      cases pre with
      | nil =>
        simp only [List.nil_append, List.cons.injEq] at hmatch
        obtain ⟨hrm, _⟩ := hmatch
        subst hrm
        simp only [List.map_nil, deleteAllOk, Option.some.injEq] at hpre
        subst hpre
        rw [if_pos hk]
        simp [World.issue, hfail]
      | cons p ps =>
        simp only [List.cons_append, List.cons.injEq] at hmatch
        obtain ⟨hrp, hrest⟩ := hmatch
        subst hrp
        simp only [List.map_cons, deleteAllOk] at hpre
        rcases hres : (api.DeleteRecord { DomainName := zone, ID := r.ID } w.ext).1 with e1 | u
        · simp [hres] at hpre
        · simp only [hres] at hpre
          rw [if_pos hk]
          simp only [World.issue, hres]
          rw [ih ps ⟨_, _⟩ hrest hpre]
          simp
    · have hk2 : ¬ r.Answer = delKey := fun h => hk h.symm
      simp only [List.filter_cons, hk2, decide_False] at hmatch
      rw [if_neg hk]
      exact ih pre w (by simpa using hmatch) hpre

/-! ### `CleanUp` of the record manager -/

/-- Filtering by host label and then by answer is filtering by both. -/
theorem filter_key_filter_host (all : List Record) (label key : String) :
    (all.filter (fun r => decide (r.Host = label))).filter (fun r => decide (r.Answer = key))
      = all.filter (fun r => decide (r.Host = label ∧ r.Answer = key)) := by
  rw [List.filter_filter]
  congr 1
  funext r
  by_cases h1 : r.Host = label <;> by_cases h2 : r.Answer = key <;> simp [h1, h2]

/-- Once the listing has ended with the records `all`, `CleanUp` is one more `GetDomain`
call followed by the delete loop over the records of `all` at the extracted host label. -/
theorem CleanUp_after_listing (api : NameComAPI σ) (fuel : Nat) (zone fqdn key d : String)
    (all : List Record) (w w1 : World σ)
    (hdomain : ∀ s, (api.GetDomain { DomainName := zone } s).1 = .ok { DomainName := d })
    (hlist : findTxtRecords.loop api { DomainName := d, PerPage := 50, Page := 0 } fuel 1 []
      (getHostedZone api zone w).2 = some (.ok all, w1)) :
    CleanUp api fuel zone fqdn key w
      = some (CleanUp.loop api d key
          (all.filter (fun r => decide (r.Host = extractRecordName fqdn d)))
          { ext := (api.GetDomain { DomainName := zone } w1.ext).2
            calls := w1.calls ++ [Call.GetDomain { DomainName := zone }] }) := by
  rw [getHostedZone_ok api zone w _ (hdomain w.ext)] at hlist
  simp only [CleanUp, findTxtRecords, getHostedZone_ok api zone w _ (hdomain w.ext),
    getHostedZone_ok api zone w1 _ (hdomain w1.ext), hlist]

/-- More fuel does not change an outcome of `findTxtRecords`. -/
theorem findTxtRecords_mono (api : NameComAPI σ) (fuel : Nat) (domain fqdn : String)
    (w : World σ) (r : Except String (List Record) × World σ)
    (h : findTxtRecords api fuel domain fqdn w = some r) (more : Nat) :
    findTxtRecords api (fuel + more) domain fqdn w = some r := by
  unfold findTxtRecords at h ⊢
  rcases hz : getHostedZone api domain w with ⟨rz, w1⟩
  rw [hz] at h
  cases rz with
  | error e => exact h
  | ok names =>
    simp only [] at h ⊢
    rcases hl : findTxtRecords.loop api
      { DomainName := names.2, PerPage := 50, Page := 0 } fuel 1 [] w1 with _ | x
    · simp [hl] at h
    · rw [findTxtRecords_loop_mono api _ fuel 1 [] w1 x hl more]
      rw [hl] at h
      exact h

/-- More fuel does not change an outcome of `CleanUp`. -/
theorem CleanUp_mono (api : NameComAPI σ) (fuel : Nat) (zone fqdn key : String)
    (w : World σ) (r : Except String Unit × World σ)
    (h : CleanUp api fuel zone fqdn key w = some r) (more : Nat) :
    CleanUp api (fuel + more) zone fqdn key w = some r := by
  unfold CleanUp at h ⊢
  rcases hf : findTxtRecords api fuel zone fqdn w with _ | x
  · simp [hf] at h
  · rw [findTxtRecords_mono api fuel zone fqdn w x hf more]
    rw [hf] at h
    exact h

end NameDotComClient

/-- The deletes after a listing that has ended: when `GetDomain` answers `d`, the listing ends with the records `all` and every
`DeleteRecord` issued succeeds, `CleanUp` succeeds and the `DeleteRecord` calls it issues are,
in listing order, exactly one per listed record whose `Host` is the extracted host label and
whose `Answer` is the key, each by that record's `ID` under the domain name `d`; after the
listing nothing is issued but the second `GetDomain` and these deletes. -/
theorem CleanUp_after_listing_deletes_the_key_records {σ : Type} (api : NameComAPI σ) (fuel : Nat)
    (zone fqdn key d : String) (all : List Record) (w w1 : World σ) (s : σ)
    (hdomain : ∀ s, (api.GetDomain { DomainName := zone } s).1 = .ok { DomainName := d })
    (hlist : NameDotComClient.findTxtRecords.loop api
      { DomainName := d, PerPage := 50, Page := 0 } fuel 1 []
      (NameDotComClient.getHostedZone api zone w).2 = some (.ok all, w1))
    (hdelete : deleteAllOk api
      ((all.filter (fun r => decide
        (r.Host = NameDotComClient.extractRecordName fqdn d ∧ r.Answer = key))).map
        (fun r => { DomainName := d, ID := r.ID }))
      (api.GetDomain { DomainName := zone } w1.ext).2 = some s) :
    ∃ w2, NameDotComClient.CleanUp api fuel zone fqdn key w = some (.ok (), w2)
      ∧ deleteCalls w2.calls = deleteCalls w.calls ++
          (all.filter (fun r => decide
            (r.Host = NameDotComClient.extractRecordName fqdn d ∧ r.Answer = key))).map
            (fun r => { DomainName := d, ID := r.ID })
      ∧ w2.calls = w1.calls ++ Call.GetDomain { DomainName := zone } ::
          (all.filter (fun r => decide
            (r.Host = NameDotComClient.extractRecordName fqdn d ∧ r.Answer = key))).map
            (fun r => Call.DeleteRecord { DomainName := d, ID := r.ID })
      ∧ w2.ext = s := by
  have hcalls := NameDotComClient.findTxtRecords_loop_deleteCalls _ _ _ _ _ _ _ hlist
  rw [NameDotComClient.getHostedZone_ok api zone w _ (hdomain w.ext)] at hcalls
  rw [← NameDotComClient.filter_key_filter_host] at hdelete
  rw [NameDotComClient.CleanUp_after_listing api fuel zone fqdn key d all w w1 hdomain hlist,
    NameDotComClient.CleanUp_loop_ok api d key _ _ s hdelete,
    NameDotComClient.filter_key_filter_host]
  refine ⟨_, rfl, ?_, ?_, rfl⟩
  · simp only [deleteCalls_append, hcalls]
    simp [deleteCalls,
      deleteCalls_map_requests (fun r : Record => { DomainName := d, ID := r.ID })]
  · simp

/-- When the remote's answers end the sweep, the pagination loop ends too, with any fuel
that covers one request per answer, and returns the records of these answers. -/
theorem NameDotComClient.findTxtRecords_loop_of_sweep {σ : Type} (api : NameComAPI σ)
    (request : ListRecordsRequest) (s : σ) (p : Int) (responses : List ListRecordsResponse)
    (s1 : σ) (h : Sweep api request s p responses s1) (fuel : Nat)
    (hfuel : responses.length ≤ fuel) (records : List Record) (calls : List Call) :
    ∃ w1, NameDotComClient.findTxtRecords.loop api request fuel p records
        { ext := s, calls := calls }
        = some (.ok (records ++ (responses.map (fun r => r.Records)).flatten), w1)
      ∧ w1.ext = s1 := by
  induction h generalizing fuel records calls with
  | last s p r hr hge =>
    cases fuel with
    | zero => simp at hfuel
    | succ n =>
      refine ⟨{ ext := (api.ListRecords { request with Page := p } s).2
                calls := calls ++ [Call.ListRecords { request with Page := p }] }, ?_, rfl⟩
      simp [NameDotComClient.findTxtRecords.loop, World.issue, hr, hge]
  | more s p r rest s1 hr hlt _ ih =>
    cases fuel with
    | zero => simp at hfuel
    | succ n =>
      have hn : rest.length ≤ n := by simpa using hfuel
      obtain ⟨w1, hloop, hext⟩ := ih n hn (records ++ r.Records)
        (calls ++ [Call.ListRecords { request with Page := p }])
      refine ⟨w1, ?_, hext⟩
      rw [NameDotComClient.findTxtRecords.loop]
      simp only [World.issue, hr, ge_iff_le, not_le.2 hlt, if_false]
      rw [hloop]
      simp

/-- What `CleanUp` deletes when the sweep ends: when `GetDomain` answers `d`, the remote's
answers end the sweep and every `DeleteRecord` issued succeeds, `CleanUp` succeeds, with any
fuel that covers the sweep, and the `DeleteRecord` calls it issues are, in order, exactly one
per record of these answers whose `Host` is the extracted host label and whose `Answer` is
the key. -/
theorem CleanUp_deletes_the_swept_key_records {σ : Type} (api : NameComAPI σ)
    (zone fqdn key d : String) (responses : List ListRecordsResponse) (w : World σ) (s1 s2 : σ)
    (hdomain : ∀ s, (api.GetDomain { DomainName := zone } s).1 = .ok { DomainName := d })
    (hsweep : Sweep api { DomainName := d, PerPage := 50, Page := 0 }
      (api.GetDomain { DomainName := zone } w.ext).2 1 responses s1)
    (hdelete : deleteAllOk api
      (((responses.map (fun r => r.Records)).flatten.filter (fun r => decide
        (r.Host = NameDotComClient.extractRecordName fqdn d ∧ r.Answer = key))).map
        (fun r => { DomainName := d, ID := r.ID }))
      (api.GetDomain { DomainName := zone } s1).2 = some s2)
    (fuel : Nat) (hfuel : responses.length ≤ fuel) :
    ∃ w2, NameDotComClient.CleanUp api fuel zone fqdn key w = some (.ok (), w2)
      ∧ deleteCalls w2.calls = deleteCalls w.calls ++
          ((responses.map (fun r => r.Records)).flatten.filter (fun r => decide
            (r.Host = NameDotComClient.extractRecordName fqdn d ∧ r.Answer = key))).map
            (fun r => { DomainName := d, ID := r.ID })
      ∧ w2.ext = s2 := by
  obtain ⟨w1, hloop, hext⟩ := NameDotComClient.findTxtRecords_loop_of_sweep api _ _ _ _ _ hsweep
    fuel hfuel [] (w.calls ++ [Call.GetDomain { DomainName := zone }])
  rw [List.nil_append] at hloop
  have hlist : NameDotComClient.findTxtRecords.loop api
      { DomainName := d, PerPage := 50, Page := 0 } fuel 1 []
      (NameDotComClient.getHostedZone api zone w).2
      = some (.ok (responses.map (fun r => r.Records)).flatten, w1) := by
    rw [NameDotComClient.getHostedZone_ok api zone w _ (hdomain w.ext)]
    exact hloop
  rw [← hext] at hdelete
  obtain ⟨w2, h1, h2, _, h4⟩ := CleanUp_after_listing_deletes_the_key_records api fuel zone fqdn
    key d _ w w1 s2 hdomain hlist hdelete
  exact ⟨w2, h1, h2, h4⟩

/-- The example of the specification: with the answers `abc` and `xyz` at the same host and
the key `abc`, only the `abc` record is deleted. -/
theorem CleanUp_deletes_the_swept_key_records_witness :
    ∃ w2, NameDotComClient.CleanUp (fakeRemote 2 []) 1 "example.com"
        "_acme-challenge.example.com." "abc"
        { ext := [txt 1 "_acme-challenge" "abc", txt 2 "_acme-challenge" "xyz"], calls := [] }
        = some (.ok (), w2)
      ∧ deleteCalls w2.calls = [{ DomainName := "example.com", ID := 1 }]
      ∧ w2.ext = [txt 2 "_acme-challenge" "xyz"] :=
  CleanUp_deletes_the_swept_key_records (fakeRemote 2 []) "example.com"
    "_acme-challenge.example.com." "abc" "example.com"
    [{ Records := [txt 1 "_acme-challenge" "abc", txt 2 "_acme-challenge" "xyz"]
       NextPage := 0
       LastPage := 0 }]
    { ext := [txt 1 "_acme-challenge" "abc", txt 2 "_acme-challenge" "xyz"], calls := [] }
    [txt 1 "_acme-challenge" "abc", txt 2 "_acme-challenge" "xyz"]
    [txt 2 "_acme-challenge" "xyz"]
    (fun _ => rfl) (Sweep.last _ _ _ rfl (by decide)) rfl 1 (le_refl 1)

/-- Claim C2, evaluated on the code: the fake remote serves its five records in three pages
of two and the fifth record, on page 3, has the host label and the answer `v5`; every call
succeeds, yet `CleanUp` with the key `v5` returns success after requesting pages 1 and 2
only, issues no `DeleteRecord` call and leaves the record at the remote, whatever the
fuel. -/
theorem CleanUp_leaves_the_key_record_of_the_last_page :
    ((fakeRemote 2 []).ListRecords { DomainName := "example.com", PerPage := 50, Page := 3 }
          fiveRecords).1
        = .ok { Records := [txt 5 "_acme-challenge" "v5"], NextPage := 0, LastPage := 0 }
      ∧ (txt 5 "_acme-challenge" "v5").Host
          = NameDotComClient.extractRecordName "_acme-challenge.example.com." "example.com"
      ∧ (txt 5 "_acme-challenge" "v5").Answer = "v5"
      ∧ (∀ fuel, NameDotComClient.CleanUp (fakeRemote 2 []) (fuel + 2) "example.com"
          "_acme-challenge.example.com." "v5" { ext := fiveRecords, calls := [] }
        = some (.ok (),
            { ext := fiveRecords
              calls := [Call.GetDomain { DomainName := "example.com" },
                Call.ListRecords { DomainName := "example.com", PerPage := 50, Page := 1 },
                Call.ListRecords { DomainName := "example.com", PerPage := 50, Page := 2 },
                Call.GetDomain { DomainName := "example.com" }] })) :=
  ⟨rfl, by decide, rfl, fun _ => rfl⟩

/-- The pagination loop never ends on the looping remote. -/
theorem findTxtRecords_loop_on_loopingRemote (request : ListRecordsRequest) (fuel : Nat)
    (p : Int) (records : List Record) (w : World Unit) :
    NameDotComClient.findTxtRecords.loop loopingRemote request fuel p records w = none := by
  induction fuel generalizing p records w with
  | zero => rfl
  | succ n ih =>
    rw [NameDotComClient.findTxtRecords.loop]
    simp only [World.issue, loopingRemote]
    rw [if_neg (by decide)]
    exact ih _ _ _

/-- Claim C5 as stated fails: on the looping remote `GetDomain` and every `ListRecords` call
succeed and no record is ever listed, so none has the host label and the key; yet `CleanUp`
does not return, whatever the fuel. -/
theorem CleanUp_nothing_to_clean_counterexample :
    (∀ request s, (loopingRemote.GetDomain request s).1
        = .ok { DomainName := request.DomainName })
      ∧ (∀ request s, (loopingRemote.ListRecords request s).1
        = .ok { Records := [], NextPage := 1, LastPage := 2 })
      ∧ ¬ ∃ fuel r, NameDotComClient.CleanUp loopingRemote fuel "example.com"
          "_acme-challenge.example.com." "abc" { ext := (), calls := [] } = some r := by
  refine ⟨fun _ _ => rfl, fun _ _ => rfl, ?_⟩
  rintro ⟨fuel, r, h⟩
  rw [NameDotComClient.CleanUp, NameDotComClient.findTxtRecords,
    NameDotComClient.getHostedZone_ok loopingRemote _ _ { DomainName := "example.com" } rfl] at h
  simp only [findTxtRecords_loop_on_loopingRemote] at h
  cases h

/-- Claim C5, amended: when `GetDomain` answers `d`, the remote's answers end the sweep (the
request for page 1, then for each reported `NextPage`, until an answer reports
`NextPage ≥ LastPage`) and no record of these answers has both the extracted host label and
an `Answer` equal to the key (as when they hold no record at all), `CleanUp` returns no
error, with any fuel that covers the sweep, and issues no `DeleteRecord` call. -/
theorem CleanUp_nothing_to_clean {σ : Type} (api : NameComAPI σ)
    (zone fqdn key d : String) (responses : List ListRecordsResponse) (w : World σ) (s1 : σ)
    (hdomain : ∀ s, (api.GetDomain { DomainName := zone } s).1 = .ok { DomainName := d })
    (hsweep : Sweep api { DomainName := d, PerPage := 50, Page := 0 }
      (api.GetDomain { DomainName := zone } w.ext).2 1 responses s1)
    (hnone : ∀ response ∈ responses, ∀ r ∈ response.Records,
      ¬ (r.Host = NameDotComClient.extractRecordName fqdn d ∧ r.Answer = key))
    (fuel : Nat) (hfuel : responses.length ≤ fuel) :
    ∃ w2, NameDotComClient.CleanUp api fuel zone fqdn key w = some (.ok (), w2)
      ∧ deleteCalls w2.calls = deleteCalls w.calls
      ∧ w2.ext = (api.GetDomain { DomainName := zone } s1).2 := by
  obtain ⟨w1, hloop, hext⟩ := NameDotComClient.findTxtRecords_loop_of_sweep api _ _ _ _ _ hsweep
    fuel hfuel [] (w.calls ++ [Call.GetDomain { DomainName := zone }])
  rw [List.nil_append] at hloop
  have hlist : NameDotComClient.findTxtRecords.loop api
      { DomainName := d, PerPage := 50, Page := 0 } fuel 1 []
      (NameDotComClient.getHostedZone api zone w).2
      = some (.ok (responses.map (fun r => r.Records)).flatten, w1) := by
    rw [NameDotComClient.getHostedZone_ok api zone w _ (hdomain w.ext)]
    exact hloop
  have hnone2 : ∀ r ∈ (responses.map (fun r => r.Records)).flatten,
      ¬ (r.Host = NameDotComClient.extractRecordName fqdn d ∧ r.Answer = key) := by
    intro r hr
    simp only [List.mem_flatten, List.mem_map] at hr
    obtain ⟨l, ⟨response, hresp, rfl⟩, hrl⟩ := hr
    exact hnone response hresp r hrl
  have hempty : ((responses.map (fun r => r.Records)).flatten.filter (fun r => decide
      (r.Host = NameDotComClient.extractRecordName fqdn d ∧ r.Answer = key))) = [] := by
    rw [List.filter_eq_nil_iff]
    intro r hr
    simpa using hnone2 r hr
  obtain ⟨w2, h1, h2, _, h4⟩ := CleanUp_after_listing_deletes_the_key_records api fuel zone fqdn
    key d _ w w1 (api.GetDomain { DomainName := zone } s1).2 hdomain hlist
    (by rw [hempty, hext]; rfl)
  refine ⟨w2, h1, ?_, h4⟩
  rw [h2, hempty]
  simp

/-- Claim C5, a concrete run: the answers of the fake remote end the sweep after two pages,
none of whose four records has the answer `abc`, so `CleanUp` with two units of fuel succeeds
without deleting anything. -/
theorem CleanUp_nothing_to_clean_witness :
    ∃ w2, NameDotComClient.CleanUp (fakeRemote 2 []) 2 "example.com"
        "_acme-challenge.example.com." "abc" { ext := fiveRecords, calls := [] }
        = some (.ok (), w2)
      ∧ deleteCalls w2.calls = []
      ∧ w2.ext = fiveRecords :=
  CleanUp_nothing_to_clean (fakeRemote 2 []) "example.com" "_acme-challenge.example.com." "abc"
    "example.com"
    [{ Records := [txt 1 "_acme-challenge" "v1", txt 2 "_acme-challenge" "v2"]
       NextPage := 2
       LastPage := 3 },
     { Records := [txt 3 "_acme-challenge" "v3", txt 4 "_acme-challenge" "v4"]
       NextPage := 3
       LastPage := 3 }]
    { ext := fiveRecords, calls := [] } fiveRecords
    (fun _ => rfl)
    (Sweep.more _ _ _ _ _ rfl (by decide) (Sweep.last _ _ _ rfl (by decide)))
    (by decide) 2 (le_refl 2)

/-- Claim C9: let the listed records with the extracted host label and the key be
`pre ++ m :: post` in listing order; when the deletes of `pre` succeed one after the other and
the delete of `m` then fails with `e`, `CleanUp` returns an error carrying `e`, the
`DeleteRecord` calls issued are exactly those of `pre` and then `m`, none is issued for
`post`, and the external state is left as the failed call left it (nothing is rolled back). -/
theorem CleanUp_aborts_at_first_failed_delete {σ : Type} (api : NameComAPI σ) (fuel : Nat)
    (zone fqdn key d e : String) (all pre post : List Record) (m : Record)
    (w w1 : World σ) (s : σ)
    (hdomain : ∀ s, (api.GetDomain { DomainName := zone } s).1 = .ok { DomainName := d })
    (hlist : NameDotComClient.findTxtRecords.loop api
      { DomainName := d, PerPage := 50, Page := 0 } fuel 1 []
      (NameDotComClient.getHostedZone api zone w).2 = some (.ok all, w1))
    (hmatch : all.filter (fun r => decide
      (r.Host = NameDotComClient.extractRecordName fqdn d ∧ r.Answer = key)) = pre ++ m :: post)
    (hpre : deleteAllOk api (pre.map (fun r => { DomainName := d, ID := r.ID }))
      (api.GetDomain { DomainName := zone } w1.ext).2 = some s)
    (hfail : (api.DeleteRecord { DomainName := d, ID := m.ID } s).1 = .error e) :
    ∃ w2, NameDotComClient.CleanUp api fuel zone fqdn key w
        = some (.error ("namecom: error deleting domain record: " ++ e), w2)
      ∧ deleteCalls w2.calls = deleteCalls w.calls ++
          (pre ++ [m]).map (fun r => { DomainName := d, ID := r.ID })
      ∧ w2.calls = w1.calls ++ Call.GetDomain { DomainName := zone } ::
          (pre ++ [m]).map (fun r => Call.DeleteRecord { DomainName := d, ID := r.ID })
      ∧ w2.ext = (api.DeleteRecord { DomainName := d, ID := m.ID } s).2 := by
  have hcalls := NameDotComClient.findTxtRecords_loop_deleteCalls _ _ _ _ _ _ _ hlist
  rw [NameDotComClient.getHostedZone_ok api zone w _ (hdomain w.ext)] at hcalls
  rw [← NameDotComClient.filter_key_filter_host] at hmatch
  rw [NameDotComClient.CleanUp_after_listing api fuel zone fqdn key d all w w1 hdomain hlist,
    NameDotComClient.CleanUp_loop_error api d key e _ pre post m _ s hmatch hpre hfail]
  refine ⟨_, rfl, ?_, ?_, rfl⟩
  · simp only [deleteCalls_append, hcalls]
    simp only [deleteCalls, List.append_nil, List.append_cancel_left_eq]
    exact deleteCalls_map_requests (fun r : Record => { DomainName := d, ID := r.ID }) _
  · simp

/-- Claim C9, a concrete run: three records carry the key and the second cannot be deleted;
the first is deleted and stays deleted, the second is attempted, the third is never tried. -/
theorem CleanUp_aborts_at_first_failed_delete_witness :
    ∃ w2, NameDotComClient.CleanUp (fakeRemote 5 [2]) 5 "example.com"
        "_acme-challenge.example.com." "abc"
        { ext := [txt 1 "_acme-challenge" "abc", txt 2 "_acme-challenge" "abc",
            txt 3 "_acme-challenge" "abc"], calls := [] }
        = some (.error "namecom: error deleting domain record: record is locked", w2)
      ∧ deleteCalls w2.calls
          = [{ DomainName := "example.com", ID := 1 }, { DomainName := "example.com", ID := 2 }]
      ∧ w2.ext = [txt 2 "_acme-challenge" "abc", txt 3 "_acme-challenge" "abc"] := by
  obtain ⟨w2, h1, h2, _, h4⟩ := CleanUp_aborts_at_first_failed_delete (fakeRemote 5 [2]) 5
    "example.com" "_acme-challenge.example.com." "abc" "example.com" "record is locked"
    [txt 1 "_acme-challenge" "abc", txt 2 "_acme-challenge" "abc", txt 3 "_acme-challenge" "abc"]
    [txt 1 "_acme-challenge" "abc"] [txt 3 "_acme-challenge" "abc"]
    (txt 2 "_acme-challenge" "abc")
    { ext := [txt 1 "_acme-challenge" "abc", txt 2 "_acme-challenge" "abc",
        txt 3 "_acme-challenge" "abc"], calls := [] }
    { ext := [txt 1 "_acme-challenge" "abc", txt 2 "_acme-challenge" "abc",
        txt 3 "_acme-challenge" "abc"],
      calls := [Call.GetDomain { DomainName := "example.com" },
        Call.ListRecords { DomainName := "example.com", PerPage := 50, Page := 1 }] }
    [txt 2 "_acme-challenge" "abc", txt 3 "_acme-challenge" "abc"]
    (fun _ => rfl) rfl (by decide) rfl rfl
  exact ⟨w2, h1, h2, h4⟩

/-! ### The client cache -/

namespace namecomDNSProviderSolver

variable {σ : Type}

/-- A cache hit returns the stored client and touches neither the cache nor the world. -/
theorem dnsClient_hit (env : Env σ) (c : namecomDNSProviderSolver) (domain : String)
    (cfg : namecomDNSProviderConfig) (ch : ChallengeRequest) (w : World σ)
    (client : NameDotComClient) (h : c.dnsClients domain = some client) :
    dnsClient env c domain cfg ch w = (.ok client, c, w) := by
  simp [dnsClient, h]

/-- The outcomes of `dnsClient` on a cache miss. -/
theorem dnsClient_miss (env : Env σ) (c : namecomDNSProviderSolver) (domain : String)
    (cfg : namecomDNSProviderConfig) (ch : ChallengeRequest) (w : World σ)
    (h : c.dnsClients domain = none) :
    (∃ err w1, dnsClient env c domain cfg ch w = (.error err, c, w1))
      ∨ ∃ client w1, dnsClient env c domain cfg ch w
          = (.ok client,
              { dnsClients := Function.update c.dnsClients domain (some client) }, w1) := by
  simp only [dnsClient, h, NewClient]
  rcases getSecretData env cfg.UsernameSecretRef ch.ResourceNamespace w with ⟨r1, w1⟩
  cases r1 with
  | error e => exact Or.inl ⟨e, w1, rfl⟩
  | ok username =>
    simp only []
    rcases getSecretData env cfg.TokenSecretRef ch.ResourceNamespace w1 with ⟨r2, w2⟩
    cases r2 with
    | error e => exact Or.inl ⟨e, w2, rfl⟩
    | ok token => exact Or.inr ⟨_, w2, rfl⟩

/-- No `dnsClient` call removes or replaces an entry of the cache. -/
theorem dnsClient_keeps_entries (env : Env σ) (c : namecomDNSProviderSolver) (domain : String)
    (cfg : namecomDNSProviderConfig) (ch : ChallengeRequest) (w : World σ)
    (D : String) (client : NameDotComClient) (h : c.dnsClients D = some client) :
    (dnsClient env c domain cfg ch w).2.1.dnsClients D = some client := by
  rcases hd : c.dnsClients domain with _ | stored
  · have hne : D ≠ domain := by
      intro heq
      rw [heq, hd] at h
      cases h
    rcases dnsClient_miss env c domain cfg ch w hd with ⟨err, w1, hr⟩ | ⟨cl, w1, hr⟩
    · rw [hr]; exact h
    · rw [hr]
      simp only [Function.update_noteq hne]
      exact h
  · rw [dnsClient_hit env c domain cfg ch w stored hd]
    exact h

/-- No sequence of `dnsClient` calls removes or replaces an entry of the cache. -/
theorem Later_keeps_entries (env : Env σ) (c c2 : namecomDNSProviderSolver)
    (hlater : Later env c c2) (D : String) (client : NameDotComClient)
    (h : c.dnsClients D = some client) : c2.dnsClients D = some client := by
  induction hlater with
  | refl => exact h
  | step c1 domain cfg ch w _ ih => exact dnsClient_keeps_entries env c1 domain cfg ch w D client ih

/-- The solver's `Present` changes the cache through `dnsClient` only. -/
theorem Present_later (env : Env σ) (c : namecomDNSProviderSolver) (ch : ChallengeRequest)
    (w : World σ) : Later env c (Present env c ch w).2.1 := by
  unfold Present
  cases loadConfig env ch.Config with
  | error e => exact Later.refl c
  | ok cfg =>
    simp only [World.issue]
    cases (env.FindZoneByFqdn ch.ResolvedFQDN w.ext).1 with
    | error e => exact Later.refl c
    | ok zoneName =>
      simp only []
      have hstep : Later env c (dnsClient env c (util.UnFqdn zoneName) cfg ch
          { ext := (env.FindZoneByFqdn ch.ResolvedFQDN w.ext).2
            calls := w.calls ++ [Call.FindZoneByFqdn ch.ResolvedFQDN] }).2.1 :=
        Later.step c c _ _ _ _ (Later.refl c)
      rcases hd : dnsClient env c (util.UnFqdn zoneName) cfg ch
        { ext := (env.FindZoneByFqdn ch.ResolvedFQDN w.ext).2
          calls := w.calls ++ [Call.FindZoneByFqdn ch.ResolvedFQDN] } with ⟨r, c2, w2⟩
      rw [hd] at hstep
      cases r <;> exact hstep

/-- The solver's `CleanUp` changes the cache through `dnsClient` only. -/
theorem CleanUp_later (env : Env σ) (fuel : Nat) (c : namecomDNSProviderSolver)
    (ch : ChallengeRequest) (w : World σ)
    (r : Except String Unit × namecomDNSProviderSolver × World σ)
    (h : CleanUp env fuel c ch w = some r) : Later env c r.2.1 := by
  unfold CleanUp at h
  cases hcfg : loadConfig env ch.Config with
  | error e =>
    simp only [hcfg, Option.some.injEq] at h
    subst h
    exact Later.refl c
  | ok cfg =>
    simp only [hcfg] at h
    have hstep : Later env c (dnsClient env c ch.ResolvedZone cfg ch w).2.1 :=
      Later.step c c _ _ _ _ (Later.refl c)
    rcases hd : dnsClient env c ch.ResolvedZone cfg ch w with ⟨rc, c1, w1⟩
    rw [hd] at hstep h
    cases rc with
    | error e =>
      simp only [Option.some.injEq] at h
      subst h
      exact hstep
    | ok client =>
      simp only [World.issue] at h
      cases hz : (env.FindZoneByFqdn ch.ResolvedFQDN w1.ext).1 with
      | error e =>
        simp only [hz, Option.some.injEq] at h
        subst h
        exact hstep
      | ok zoneName =>
        simp only [hz] at h
        split at h
        · cases h
        · simp only [Option.some.injEq] at h
          subst h
          exact hstep

end namecomDNSProviderSolver

/-- Claim C8 (the cache as a sequential map): a `dnsClient` call for `D` that succeeds on a
cache miss leaves the cache mapping `D` to the returned client, and from then on, after any
further `dnsClient` calls, every `dnsClient` call for `D`, with any configuration, request
and world, returns that same client and leaves the cache and the world (so also the log of
secret lookups) unchanged; and a `dnsClient` call that fails leaves the cache unchanged. -/
theorem dnsClient_caching_is_idempotent {σ : Type} (env : Env σ)
    (c : namecomDNSProviderSolver) (D : String) (cfg : namecomDNSProviderConfig)
    (ch : ChallengeRequest) (w : World σ) :
    (c.dnsClients D = none →
      ∀ client c1 w1,
        namecomDNSProviderSolver.dnsClient env c D cfg ch w = (.ok client, c1, w1) →
        c1.dnsClients D = some client
          ∧ ∀ c2, namecomDNSProviderSolver.Later env c1 c2 →
              ∀ cfg2 ch2 (w2 : World σ),
                namecomDNSProviderSolver.dnsClient env c2 D cfg2 ch2 w2 = (.ok client, c2, w2))
      ∧ (∀ err c1 w1,
          namecomDNSProviderSolver.dnsClient env c D cfg ch w = (.error err, c1, w1) →
          c1 = c) := by
  constructor
  · intro hmiss client c1 w1 hcall
    have hstored : c1.dnsClients D = some client := by
      rcases namecomDNSProviderSolver.dnsClient_miss env c D cfg ch w hmiss with
        ⟨err, w3, hr⟩ | ⟨cl, w3, hr⟩
      · rw [hr] at hcall; cases hcall
      · rw [hr] at hcall
        cases hcall
        simp
    refine ⟨hstored, ?_⟩
    intro c2 hlater cfg2 ch2 w2
    exact namecomDNSProviderSolver.dnsClient_hit env c2 D cfg2 ch2 w2 client
      (namecomDNSProviderSolver.Later_keeps_entries env c1 c2 hlater D client hstored)
  · intro err c1 w1 hcall
    rcases hd : c.dnsClients D with _ | stored
    · rcases namecomDNSProviderSolver.dnsClient_miss env c D cfg ch w hd with
        ⟨err2, w3, hr⟩ | ⟨cl, w3, hr⟩
      · rw [hr] at hcall; cases hcall; rfl
      · rw [hr] at hcall; cases hcall
    · rw [namecomDNSProviderSolver.dnsClient_hit env c D cfg ch w stored hd] at hcall
      cases hcall

/-- Claim C8, a concrete run on the fake cluster: the first lookup for `example.com` misses
and stores the client; after a further lookup for `other.org`, a lookup for `example.com`
with a configuration naming a missing secret still returns the stored client and changes
nothing; and a failing lookup on the empty cache leaves it empty. -/
theorem dnsClient_caching_is_idempotent_witness :
    afterFirstLookup.1 = .ok aliceClient
      ∧ afterFirstLookup.2.1.dnsClients "example.com" = some aliceClient
      ∧ namecomDNSProviderSolver.dnsClient fakeEnv
          (namecomDNSProviderSolver.dnsClient fakeEnv afterFirstLookup.2.1 "other.org"
            fakeConfig fakeChallenge afterFirstLookup.2.2).2.1
          "example.com" missingSecretConfig fakeChallenge afterFirstLookup.2.2
        = (.ok aliceClient,
            (namecomDNSProviderSolver.dnsClient fakeEnv afterFirstLookup.2.1 "other.org"
              fakeConfig fakeChallenge afterFirstLookup.2.2).2.1,
            afterFirstLookup.2.2)
      ∧ (namecomDNSProviderSolver.dnsClient fakeEnv emptySolver "example.com"
          missingSecretConfig fakeChallenge emptyWorld).2.1 = emptySolver :=
  have h := (dnsClient_caching_is_idempotent fakeEnv emptySolver "example.com" fakeConfig
    fakeChallenge emptyWorld).1 rfl aliceClient afterFirstLookup.2.1 afterFirstLookup.2.2 rfl
  ⟨rfl, h.1,
    h.2 _ (namecomDNSProviderSolver.Later.step _ _ "other.org" fakeConfig fakeChallenge
      afterFirstLookup.2.2 (namecomDNSProviderSolver.Later.refl _))
      missingSecretConfig fakeChallenge afterFirstLookup.2.2,
    (dnsClient_caching_is_idempotent fakeEnv emptySolver "example.com" missingSecretConfig
      fakeChallenge emptyWorld).2
      "failed to get secret \"cert-manager/no-such-secret\": secrets \"no-such-secret\" not found"
      _ (namecomDNSProviderSolver.dnsClient fakeEnv emptySolver "example.com"
          missingSecretConfig fakeChallenge emptyWorld).2.2 rfl⟩

/-! ### `CleanUp` of the solver -/

/-- Claim C7, evaluated on the code: on the fake cluster `Present` succeeds for the
challenge and caches its client under `example.com` (the resolved zone without its root
dot), leaving `example.com.` unmapped; `CleanUp` for the same challenge then looks the
client up under `ResolvedZone`, that is `example.com.`, misses, performs both credential
lookups again and stores a second entry. -/
theorem CleanUp_misses_the_client_cached_by_Present :
    afterPresent.1 = .ok ()
      ∧ afterPresent.2.1.dnsClients "example.com" = some aliceClient
      ∧ afterPresent.2.1.dnsClients "example.com." = none
      ∧ secretCalls afterPresent.2.2.calls
          = [("cert-manager", "namecom-credentials"), ("cert-manager", "namecom-credentials")]
      ∧ ∃ r, namecomDNSProviderSolver.CleanUp fakeEnv 5 afterPresent.2.1 fakeChallenge
            afterPresent.2.2 = some r
          ∧ r.1 = .ok ()
          ∧ secretCalls r.2.2.calls
              = [("cert-manager", "namecom-credentials"), ("cert-manager", "namecom-credentials"),
                 ("cert-manager", "namecom-credentials"), ("cert-manager", "namecom-credentials")]
          ∧ r.2.1.dnsClients "example.com." = some aliceClient
          ∧ r.2.1.dnsClients "example.com" = some aliceClient :=
  ⟨rfl, rfl, rfl, rfl, _, rfl, rfl, rfl, rfl, rfl⟩

/-! ### Credential lookup -/

/-- Claim C10, evaluated on the code: the secret `cert-manager/namecom-credentials` exists
but has no key `api-token`; the error message names the secret and ends in the text of a nil
error, `<nil>`, and the key name occurs nowhere in it. -/
theorem getSecretData_message_omits_the_key :
    (namecomDNSProviderSolver.getSecretData fakeEnv
        { Name := "namecom-credentials", Key := "api-token" } "cert-manager" emptyWorld).1
        = .error "key not found in secret \"cert-manager/namecom-credentials\": <nil>"
      ∧ ¬ "api-token".data <:+:
          "key not found in secret \"cert-manager/namecom-credentials\": <nil>".data :=
  ⟨rfl, by decide⟩

/-- The outcomes of `getSecretData`: when the secret cannot be fetched, or is fetched but has
no entry for the key, it returns an error, never a value, whose message contains the secret
identified as `ns/name` in the form `%q` gives it; when the secret has the key, it returns
that entry as a string and no error. -/
theorem getSecretData_outcomes {σ : Type} (env : Env σ) (selector : SecretKeySelector)
    (ns : String) (w : World σ) :
    match (env.GetSecret ns selector.Name w.ext).1 with
    | .error _ =>
      ∃ msg, (namecomDNSProviderSolver.getSecretData env selector ns w).1 = .error msg
        ∧ (env.Quote (ns ++ "/" ++ selector.Name)).data <:+: msg.data
    | .ok secret =>
      match secret.Data selector.Key with
      | none =>
        ∃ msg, (namecomDNSProviderSolver.getSecretData env selector ns w).1 = .error msg
          ∧ (env.Quote (ns ++ "/" ++ selector.Name)).data <:+: msg.data
      | some data => (namecomDNSProviderSolver.getSecretData env selector ns w).1 = .ok data := by
  rcases hget : (env.GetSecret ns selector.Name w.ext).1 with e | secret
  · simp only [namecomDNSProviderSolver.getSecretData, World.issue, hget]
    exact ⟨_, rfl, ⟨"failed to get secret ".data, (": " ++ e).data, by simp [String.append_assoc]⟩⟩
  · simp only [namecomDNSProviderSolver.getSecretData, World.issue, hget]
    rcases hkey : secret.Data selector.Key with _ | data
    · exact ⟨_, rfl, ⟨"key not found in secret ".data, (": " ++ "<nil>").data,
        by simp [String.append_assoc]⟩⟩
    · rfl
